import Mathlib

/-
  Verification development for the supershake optimizer (src/main.go).

  Embedding conventions:
  * Go `float64` is modeled as `ℚ`; every numeric fact the spec states about
    the penalty model is exact rational arithmetic, so the embedding is exact.
  * Go `int` is modeled as `Int` (no claim involves 64-bit overflow).
  * A Go `map` is modeled as an association list together with the read
    semantics of Go maps: reading an absent key yields the zero value
    (`mapGetD m k 0`), and the two-result read `v, exists := m[k]` is
    `mapGet m k : Option _`.
  * A Go `panic` is modeled as `Option.none` in the function's result.
  * `fmt.Printf` tracing (the `verbose` flag) and the pprof harness are
    side effects with no influence on any computed value and are dropped;
    the `verbose` parameters themselves are kept.
-/

structure Nutrient where
  id : Int
  units : String
  description : String
deriving DecidableEq

structure NutrientInFood where
  nutrient : Nutrient
  amountPerG : ℚ
deriving DecidableEq

structure Food where
  id : Int
  foodGroup : String
  description : String
  manufacturer : String
  nutrients : List NutrientInFood
deriving DecidableEq

/-- `Recipe` from the source: cached nutrient totals (nutrient id -> total
quantity) and food quantities (food id -> number of grams), both Go maps. -/
structure Recipe where
  nutrientTotals : List (Int × ℚ)
  foodQuantities : List (Int × Int)
deriving DecidableEq

/-- Go map read: `v, exists := m[k]`. -/
def mapGet {κ α : Type} [DecidableEq κ] (m : List (κ × α)) (k : κ) : Option α :=
  match m with
  | [] => none
  | p :: rest => if p.1 = k then some p.2 else mapGet rest k

/-- Go map read returning the zero value on a missing key: `m[k]`. -/
def mapGetD {κ α : Type} [DecidableEq κ] (m : List (κ × α)) (k : κ) (dflt : α) : α :=
  (mapGet m k).getD dflt

/-- Go map write `m[k] = v`: replace the entry if the key is present,
otherwise add a new entry. -/
def mapSet {κ α : Type} [DecidableEq κ] (m : List (κ × α)) (k : κ) (v : α) : List (κ × α) :=
  match m with
  | [] => [(k, v)]
  | p :: rest => if p.1 = k then (k, v) :: rest else p :: mapSet rest k v

/-- Go map `delete(m, k)`. -/
def mapDel {κ α : Type} [DecidableEq κ] (m : List (κ × α)) (k : κ) : List (κ × α) :=
  match m with
  | [] => []
  | p :: rest => if p.1 = k then mapDel rest k else p :: mapDel rest k

/-- The association list has pairwise distinct keys, i.e. it faithfully
represents a Go map. All lists built from `[]` by `mapSet`/`mapDel` have it. -/
def keysNodup {κ α : Type} (m : List (κ × α)) : Prop :=
  (m.map Prod.fst).Nodup

/-- Embeds `calcPenalty` (src/main.go:359-386). The `verbose` printing is a
side effect and is dropped; the returned value is unchanged. -/
def calcPenalty (nutrientName : String) (amount min max : ℚ) (verbose : Bool) : ℚ :=
  if amount < min then
    (min - amount) / min * 100
  else
    -- amount >= min
    if max ≠ 0 then
      let minMaxMidpoint := min + (max - min) / 2
      if amount < minMaxMidpoint then
        -- less than midpoint, no penalty
        0
      else
        -- linear penalty for above midpoint
        let overBy := amount - minMaxMidpoint
        (overBy / (max - minMaxMidpoint)) * 100
    else
      0

/-- Embeds `Recipe.AssertConsistency` (src/main.go:479-508). In the source the
entire body — the zero-quantity check, the from-scratch recomputation of
`nutrientTotals`, and the 0.5-tolerance comparison — is commented out, so the
function performs no check and cannot panic. -/
def Recipe.AssertConsistency (_recipe : Recipe) (_allFoods : List (Int × Food)) : Option Unit :=
  some ()

/-- Embeds `NewRecipe` (src/main.go:390-401): empty quantities, and a totals
map seeded with 0 for every nutrient id of the catalog. The trailing
`AssertConsistency` call is a no-op. -/
def NewRecipe (_allFoods : List (Int × Food)) (allNutrients : List (Int × Nutrient)) : Recipe :=
  { nutrientTotals := allNutrients.foldl (fun ts p => mapSet ts p.1 (0 : ℚ)) []
    foodQuantities := [] }

/-- Embeds `Recipe.HasFood` (src/main.go:425-428). -/
def Recipe.HasFood (recipe : Recipe) (food : Food) : Bool :=
  (mapGet recipe.foodQuantities food.id).isSome

/-- The `for _, nutrientInFood := range food.nutrients` update loop of
`Recipe.AddFood` (src/main.go:441-446): `nutrientTotals[id] += amountPerG * q`. -/
def addNutrientTotals (totals : List (Int × ℚ)) (food : Food) (quantityToAdd : Int) : List (Int × ℚ) :=
  food.nutrients.foldl
    (fun ts nif => mapSet ts nif.nutrient.id
      (mapGetD ts nif.nutrient.id 0 + nif.amountPerG * (quantityToAdd : ℚ)))
    totals

/-- The update loop of `Recipe.RemoveFood` (src/main.go:469-474):
`nutrientTotals[id] -= amountPerG * q`. -/
def subNutrientTotals (totals : List (Int × ℚ)) (food : Food) (quantityToRemove : Int) : List (Int × ℚ) :=
  food.nutrients.foldl
    (fun ts nif => mapSet ts nif.nutrient.id
      (mapGetD ts nif.nutrient.id 0 - nif.amountPerG * (quantityToRemove : ℚ)))
    totals

/-- Embeds `Recipe.AddFood` (src/main.go:430-448). The source has no failure
path (the two `AssertConsistency` calls are no-ops and nothing else can
panic), so the result is always `some`. -/
def Recipe.AddFood (recipe : Recipe) (allFoods : List (Int × Food)) (food : Food)
    (quantityToAdd : Int) : Option Recipe :=
  match recipe.AssertConsistency allFoods with
  | none => none
  | some _ =>
    let foodQuantities :=
      match mapGet recipe.foodQuantities food.id with
      | some originalQuantity =>
        mapSet recipe.foodQuantities food.id (originalQuantity + quantityToAdd)
      | none =>
        mapSet recipe.foodQuantities food.id quantityToAdd
    let result : Recipe :=
      { nutrientTotals := addNutrientTotals recipe.nutrientTotals food quantityToAdd
        foodQuantities := foodQuantities }
    match result.AssertConsistency allFoods with
    | none => none
    | some _ => some result

/-- Embeds `Recipe.RemoveFood` (src/main.go:450-477). `none` models the two
panics: food absent from the recipe, and removing more than is present. -/
def Recipe.RemoveFood (recipe : Recipe) (allFoods : List (Int × Food)) (food : Food)
    (quantityToRemove : Int) : Option Recipe :=
  match recipe.AssertConsistency allFoods with
  | none => none
  | some _ =>
    match mapGet recipe.foodQuantities food.id with
    | none => none  -- panic: asked to remove food that is not in recipe
    | some originalQuantity =>
      if quantityToRemove > originalQuantity then
        none  -- panic: asked to remove more food than is in recipe
      else
        let foodQuantities :=
          if quantityToRemove = originalQuantity then
            mapDel recipe.foodQuantities food.id
          else
            mapSet recipe.foodQuantities food.id (originalQuantity - quantityToRemove)
        let result : Recipe :=
          { nutrientTotals := subNutrientTotals recipe.nutrientTotals food quantityToRemove
            foodQuantities := foodQuantities }
        match result.AssertConsistency allFoods with
        | none => none
        | some _ => some result

/-- Embeds `Recipe.Clone` (src/main.go:510-526): build a fresh `NewRecipe`,
then copy every food quantity and every nutrient total onto it. -/
def Recipe.Clone (recipe : Recipe) (allFoods : List (Int × Food))
    (allNutrients : List (Int × Nutrient)) : Recipe :=
  let newRecipe := NewRecipe allFoods allNutrients
  let newRecipe :=
    { newRecipe with
      foodQuantities :=
        recipe.foodQuantities.foldl (fun m (p : Int × Int) => mapSet m p.1 p.2)
          newRecipe.foodQuantities }
  let newRecipe :=
    { newRecipe with
      nutrientTotals :=
        recipe.nutrientTotals.foldl (fun m (p : Int × ℚ) => mapSet m p.1 p.2)
          newRecipe.nutrientTotals }
  newRecipe

/-- Embeds `Recipe.calculatePenaltyForNutrient` (src/main.go:528-534). A
nutrient name absent from `nutrientNameToId` resolves to id 0 (Go zero value)
and in turn to amount 0. -/
def Recipe.calculatePenaltyForNutrient (recipe : Recipe)
    (nutrientNameToId : List (String × Int)) (nutrientName : String)
    (min max : ℚ) (verbose : Bool) : ℚ :=
  let nutrientId := mapGetD nutrientNameToId nutrientName 0
  let amount := mapGetD recipe.nutrientTotals nutrientId 0
  calcPenalty nutrientName amount min max verbose

/-- Embeds `Recipe.Score` (src/main.go:537-772): the 39 target-table entries
in source order, the combined phenylalanine+tyrosine entry, the derived folate
entry, the caffeine threshold penalty, the dihydrophylloquinone pass-through,
and the food-count and mass penalties. The leading `AssertConsistency` call is
a no-op. -/
def Recipe.Score (recipe : Recipe) (_nutrients : List (Int × Nutrient))
    (_allFoods : List (Int × Food)) (nutrientNameToId : List (String × Int))
    (verbose : Bool) : ℚ :=
  let cpn := fun (name : String) (min max : ℚ) =>
    recipe.calculatePenaltyForNutrient nutrientNameToId name min max verbose
  let amountPhenylalanine :=
    mapGetD recipe.nutrientTotals (mapGetD nutrientNameToId "Phenylalanine" 0) 0
  let amountTyrosine :=
    mapGetD recipe.nutrientTotals (mapGetD nutrientNameToId "Tyrosine" 0) 0
  let foodFolate :=
    mapGetD recipe.nutrientTotals (mapGetD nutrientNameToId "Folate, food" 0) 0
  let folicAcid :=
    mapGetD recipe.nutrientTotals (mapGetD nutrientNameToId "Folic acid" 0) 0
  let caffeine :=
    mapGetD recipe.nutrientTotals (mapGetD nutrientNameToId "Caffeine" 0) 0
  let numFoods : Int :=
    recipe.foodQuantities.foldl (fun n p => if p.2 ≠ 0 then n + 1 else n) 0
  let totalMass : Int :=
    recipe.foodQuantities.foldl (fun acc p => acc + p.2) 0
  cpn "Total lipid (fat)" 60 300
  + cpn "Energy, kcal" 2700 10000
  + cpn "Protein" 101.5 3510
  + cpn "Fiber, total dietary" 38 0
  + cpn "Calcium, Ca" 1000 2500
  + cpn "Iron, Fe" 8 45
  + cpn "Magnesium, Mg" 400 0
  + cpn "Phosphorus, P" 700 4000
  + cpn "Potassium, K" 4700 0
  + cpn "Sodium, Na" 1500 2300
  + cpn "Zinc, Zn" 11 40
  + cpn "Copper, Cu" 0.9 10
  + cpn "Manganese, Mn" 2.3 11
  + cpn "Selenium, Se" 55 400
  + cpn "Vitamin A, RAE" 900 1500
  + cpn "Vitamin E (alpha-tocopherol)" 15 1000
  + cpn "Lutein + zeaxanthin" 12000 0
  + cpn "Vitamin C, total ascorbic acid" 90 2000
  + cpn "Thiamin" 1.2 0
  + cpn "Riboflavin" 1.3 0
  + cpn "Niacin" 16 35
  + cpn "Pantothenic acid" 5 0
  + cpn "Vitamin B-6" 1.3 100
  + cpn "Vitamin B-12" 2.4 0
  + cpn "Choline, total" 550 3500
  + cpn "Vitamin K (phylloquinone)" 120 0
  + cpn "Lysine" 1.95 0
  + cpn "Leucine" 2.535 0
  + cpn "Methionine" 0.65 0
  + cpn "Cystine" 0.26 0
  + cpn "Valine" 1.69 0
  + cpn "Histidine" 0.65 0
  + cpn "Tryptophan" 0.26 0
  + cpn "Threonine" 0.975 0
  + cpn "Isoleucine" 1.3 0
  + cpn "18:3 n-3 c,c,c (ALA)" 1.6 0
  + cpn "20:5 n-3 (EPA)" 1.6 0
  + cpn "22:6 n-3 (DHA)" 1.6 0
  + cpn "Water" 946 0
  + calcPenalty "Phenylalanine + Tyrosine" (amountPhenylalanine + amountTyrosine) 1.625 0 verbose
  + calcPenalty "Folate" (foodFolate + 1.7 * folicAcid) 400 1000 verbose
  + (if caffeine > 20 then caffeine - 5 else 0)
  + mapGetD recipe.nutrientTotals (mapGetD nutrientNameToId "Dihydrophylloquinone" 0) 0
  + min ((numFoods : ℚ) / 100) 1 * 10
  + min ((totalMass : ℚ) / 3000) 1 * 10

/-- Amount-per-gram that a list of `NutrientInFood` entries contributes to
nutrient `nid` (summing duplicates, as the update loops do). -/
def apgList (l : List NutrientInFood) (nid : Int) : ℚ :=
  match l with
  | [] => 0
  | nif :: rest => (if nif.nutrient.id = nid then nif.amountPerG else 0) + apgList rest nid

/-- Amount-per-gram `food` contributes to nutrient `nid`. -/
def apgTotal (food : Food) (nid : Int) : ℚ :=
  apgList food.nutrients nid

/-- Go's `allFoods[foodId]` with the zero-value `Food` on a missing key, as in
the (commented-out) recomputation of `Recipe.AssertConsistency`. -/
def foodAt (allFoods : List (Int × Food)) (fid : Int) : Food :=
  mapGetD allFoods fid { id := 0, foodGroup := "", description := "", manufacturer := "", nutrients := [] }

/-- From-scratch recomputation of one nutrient total: the sum over all
`(foodId, grams)` entries of `grams × amountPerGram(foodId, nid)`. This is the
right-hand side of the documented `nutrientTotals` invariant. -/
def recomputeTotal (allFoods : List (Int × Food)) (q : List (Int × Int)) (nid : Int) : ℚ :=
  match q with
  | [] => 0
  | p :: rest => (p.2 : ℚ) * apgTotal (foodAt allFoods p.1) nid + recomputeTotal allFoods rest nid

/-- Recipes built from `NewRecipe` by `Recipe.AddFood` and successful
`Recipe.RemoveFood` calls with positive gram amounts, using foods of the
catalog (in `main` every mutated food ranges over `allFoods`). -/
inductive Reachable (allFoods : List (Int × Food)) (allNutrients : List (Int × Nutrient)) : Recipe → Prop
  | base : Reachable allFoods allNutrients (NewRecipe allFoods allNutrients)
  | add (r r' : Recipe) (food : Food) (grams : Int) :
      Reachable allFoods allNutrients r →
      mapGet allFoods food.id = some food →
      0 < grams →
      r.AddFood allFoods food grams = some r' →
      Reachable allFoods allNutrients r'
  | remove (r r' : Recipe) (food : Food) (grams : Int) :
      Reachable allFoods allNutrients r →
      mapGet allFoods food.id = some food →
      0 < grams →
      r.RemoveFood allFoods food grams = some r' →
      Reachable allFoods allNutrients r'

/-- `STEPSIZE := int(5)` from `main` (src/main.go:785). -/
def STEPSIZE : Int := 5

/-- Every stored food quantity is a positive multiple of `STEPSIZE`
(hence at least `STEPSIZE`). -/
def stepAligned (recipe : Recipe) : Prop :=
  ∀ fid q, mapGet recipe.foodQuantities fid = some q → 0 < q ∧ STEPSIZE ∣ q

/-- Loop state of one round of the hill-climbing search in `main`
(src/main.go:803-845): the working recipe, the best-this-round candidate
(`nil` = `none`), and the best-this-round score. -/
structure RoundState where
  current : Recipe
  bestThisRound : Option Recipe
  bestScoreThisRound : ℚ
deriving DecidableEq

/-- Result of one round of the outer loop of `main` (src/main.go:799-871). -/
inductive RoundOutcome where
  /-- A `RemoveFood` call inside the round panicked. -/
  | removeFault : RoundOutcome
  /-- The accepted candidate scored worse than the recipe it replaces:
  the `panic("wtf")` internal-consistency check (src/main.go:864-866). -/
  | wtfFault : RoundOutcome
  /-- No candidate improved on the incoming best: local optimum, the search
  stops and reports the incoming best recipe (src/main.go:847-862). -/
  | terminated (best : Recipe) : RoundOutcome
  /-- The best-this-round candidate is adopted as the new best
  (src/main.go:867-870). -/
  | adopted (best : Recipe) (score : ℚ) : RoundOutcome
deriving DecidableEq

/-- The "try removing" half of the per-food loop body (src/main.go:820-831). -/
def tryRemovePhase (nutrients : List (Int × Nutrient)) (allFoods : List (Int × Food))
    (nutrientNameToId : List (String × Int)) (st : RoundState) (food : Food) :
    Option RoundState :=
  if st.current.HasFood food then
    match st.current.RemoveFood allFoods food STEPSIZE with
    | none => none
    | some removed =>
      let newScore := removed.Score nutrients allFoods nutrientNameToId false
      let st1 :=
        if newScore < st.bestScoreThisRound then
          { st with bestThisRound := some (removed.Clone allFoods nutrients)
                    bestScoreThisRound := newScore }
        else st
      -- always undo
      match removed.AddFood allFoods food STEPSIZE with
      | none => none
      | some restored => some { st1 with current := restored }
  else
    some st

/-- The "try adding" half of the per-food loop body (src/main.go:835-844). -/
def tryAddPhase (nutrients : List (Int × Nutrient)) (allFoods : List (Int × Food))
    (nutrientNameToId : List (String × Int)) (st : RoundState) (food : Food) :
    Option RoundState :=
  match st.current.AddFood allFoods food STEPSIZE with
  | none => none
  | some added =>
    let newScore := added.Score nutrients allFoods nutrientNameToId false
    let st1 :=
      if newScore < st.bestScoreThisRound then
        { st with bestThisRound := some (added.Clone allFoods nutrients)
                  bestScoreThisRound := newScore }
      else st
    -- always undo
    match added.RemoveFood allFoods food STEPSIZE with
    | none => none
    | some restored => some { st1 with current := restored }

/-- One iteration of `for _, food := range allFoods` (src/main.go:811-845). -/
def tryFood (nutrients : List (Int × Nutrient)) (allFoods : List (Int × Food))
    (nutrientNameToId : List (String × Int)) (st : RoundState) (food : Food) :
    Option RoundState :=
  (tryRemovePhase nutrients allFoods nutrientNameToId st food).bind
    (fun st1 => tryAddPhase nutrients allFoods nutrientNameToId st1 food)

/-- One round of the outer `for bestScoreEver > 0` loop of `main`
(src/main.go:799-871), given the incoming best recipe and its score. -/
def runRound (nutrients : List (Int × Nutrient)) (allFoods : List (Int × Food))
    (nutrientNameToId : List (String × Int)) (bestRecipeEver : Recipe)
    (bestScoreEver : ℚ) : RoundOutcome :=
  let init : RoundState :=
    { current := bestRecipeEver.Clone allFoods nutrients
      bestThisRound := none
      bestScoreThisRound := bestScoreEver }
  match allFoods.foldl
      (fun acc p => acc.bind (fun st => tryFood nutrients allFoods nutrientNameToId st p.2))
      (some init) with
  | none => RoundOutcome.removeFault
  | some st =>
    match st.bestThisRound with
    | none => RoundOutcome.terminated bestRecipeEver
    | some bestRecipeThisRound =>
      if st.bestScoreThisRound > bestScoreEver then RoundOutcome.wtfFault
      else RoundOutcome.adopted bestRecipeThisRound st.bestScoreThisRound

/-- Best recipes reachable by the optimizer's search loop: the driver starts
from the empty recipe and replaces the best recipe exactly by a round's
adopted candidate, tracking the best score alongside. -/
inductive OptReachable (nutrients : List (Int × Nutrient)) (allFoods : List (Int × Food))
    (nutrientNameToId : List (String × Int)) : Recipe → Prop
  | base : OptReachable nutrients allFoods nutrientNameToId (NewRecipe allFoods nutrients)
  | step (b b' : Recipe) (sc : ℚ) :
      OptReachable nutrients allFoods nutrientNameToId b →
      runRound nutrients allFoods nutrientNameToId b
        (b.Score nutrients allFoods nutrientNameToId false) = RoundOutcome.adopted b' sc →
      OptReachable nutrients allFoods nutrientNameToId b'

/-
  A heap model for the aliasing claim about `Recipe.Clone`. A Go `Recipe`
  value holds two map references; the heap stores the map contents at
  numeric addresses, and `Clone` allocates fresh addresses (Go `make`) and
  copies the contents, exactly as `NewRecipe` + the two copy loops do.
-/

/-- A reference to a recipe: the addresses of its two maps. -/
structure RecipeRef where
  taddr : Nat
  qaddr : Nat
deriving DecidableEq

/-- The mutable store: map contents per address, plus an allocation bound
(`make` always returns a fresh address). -/
structure Heap where
  theap : Nat → List (Int × ℚ)
  qheap : Nat → List (Int × Int)
  nextAddr : Nat

/-- Dereference a recipe: read both of its maps. -/
def Heap.readRecipe (h : Heap) (ref : RecipeRef) : Recipe :=
  { nutrientTotals := h.theap ref.taddr, foodQuantities := h.qheap ref.qaddr }

/-- Store a recipe value into the maps a reference points to. -/
def Heap.writeRecipe (h : Heap) (ref : RecipeRef) (r : Recipe) : Heap :=
  { h with
    theap := fun a => if a = ref.taddr then r.nutrientTotals else h.theap a
    qheap := fun a => if a = ref.qaddr then r.foodQuantities else h.qheap a }

/-- `NewRecipe` in the heap: allocate two fresh maps and seed them. -/
def Heap.newRecipe (h : Heap) (allFoods : List (Int × Food))
    (allNutrients : List (Int × Nutrient)) : Heap × RecipeRef :=
  let ref : RecipeRef := { taddr := h.nextAddr, qaddr := h.nextAddr + 1 }
  let h1 : Heap := { h with nextAddr := h.nextAddr + 2 }
  (h1.writeRecipe ref (NewRecipe allFoods allNutrients), ref)

/-- `Recipe.Clone` in the heap: a fresh `NewRecipe`, then copy both maps of
the original onto the fresh maps (the two copy loops of src/main.go:515-522). -/
def Heap.cloneRecipe (h : Heap) (allFoods : List (Int × Food))
    (allNutrients : List (Int × Nutrient)) (ref : RecipeRef) : Heap × RecipeRef :=
  let alloc := h.newRecipe allFoods allNutrients
  let h1 := alloc.1
  let newRef := alloc.2
  (h1.writeRecipe newRef ((h1.readRecipe ref).Clone allFoods allNutrients), newRef)

/-- A mutation applied to a recipe reference. -/
inductive RecipeMut where
  | add (food : Food) (grams : Int) : RecipeMut
  | remove (food : Food) (grams : Int) : RecipeMut

/-- Apply one mutation through a reference: dereference, run the map updates
of `AddFood`/`RemoveFood`, store back. A panicking `RemoveFood` changes no
observable state. -/
def Heap.applyMut (h : Heap) (allFoods : List (Int × Food)) (ref : RecipeRef)
    (m : RecipeMut) : Heap :=
  match m with
  | RecipeMut.add food grams =>
    match (h.readRecipe ref).AddFood allFoods food grams with
    | some r' => h.writeRecipe ref r'
    | none => h
  | RecipeMut.remove food grams =>
    match (h.readRecipe ref).RemoveFood allFoods food grams with
    | some r' => h.writeRecipe ref r'
    | none => h

/-- Apply a sequence of mutations through a reference. -/
def Heap.applyMuts (h : Heap) (allFoods : List (Int × Food)) (ref : RecipeRef)
    (ms : List RecipeMut) : Heap :=
  ms.foldl (fun acc m => acc.applyMut allFoods ref m) h

/-
  Concrete fixtures for witnesses and counterexamples.
-/

/-- A sample nutrient for concrete evaluations. -/
def sampleNutrient : Nutrient :=
  { id := 301, units := "mg", description := "Calcium, Ca" }

/-- A sample food contributing 2 units of `sampleNutrient` per gram. -/
def sampleFood : Food :=
  { id := 11090, foodGroup := "1100", description := "Broccoli, raw", manufacturer := ""
    nutrients := [{ nutrient := sampleNutrient, amountPerG := 2 }] }

/-- A recipe whose cached totals diverge from the recomputed totals: the cache
says 100 units of nutrient 301 while the recipe contains no food at all. -/
def divergentRecipe : Recipe :=
  { nutrientTotals := [(301, 100)], foodQuantities := [] }

/-- A one-food catalog for concrete evaluations. -/
def sampleCatalogFoods : List (Int × Food) :=
  [(11090, sampleFood)]

/-- A one-nutrient catalog for concrete evaluations. -/
def sampleCatalogNutrients : List (Int × Nutrient) :=
  [(301, sampleNutrient)]

/-- The recipe obtained by adding 50 grams of `sampleFood` to the fresh
recipe over the sample catalog. -/
def sampleRecipeAdded : Recipe :=
  { nutrientTotals := [(301, 100)], foodQuantities := [(11090, 50)] }

/-- The empty heap: no maps allocated yet. -/
def emptyHeap : Heap :=
  { theap := fun _ => [], qheap := fun _ => [], nextAddr := 0 }

/-- A heap holding one freshly allocated recipe over the sample catalog. -/
def witnessHeap : Heap :=
  (emptyHeap.newRecipe sampleCatalogFoods sampleCatalogNutrients).1

/-- The reference to the recipe allocated in `witnessHeap`. -/
def witnessRef : RecipeRef :=
  (emptyHeap.newRecipe sampleCatalogFoods sampleCatalogNutrients).2

/-- Invariant of the per-round fold: the working recipe's maps have pairwise
distinct keys, and the best-this-round candidate, when present, scores exactly
the recorded best-this-round score, which is strictly below the round's
starting score; when no candidate has been recorded the recorded score still
equals the starting score. -/
def RoundInv (nutrients : List (Int × Nutrient)) (allFoods : List (Int × Food))
    (nutrientNameToId : List (String × Int)) (startScore : ℚ) (st : RoundState) : Prop :=
  keysNodup st.current.nutrientTotals ∧ keysNodup st.current.foodQuantities ∧
  match st.bestThisRound with
  | none => st.bestScoreThisRound = startScore
  | some b =>
      b.Score nutrients allFoods nutrientNameToId false = st.bestScoreThisRound
      ∧ st.bestScoreThisRound < startScore

/-- Invariant of the per-round fold for the step-alignment safety claim: the
working recipe and any recorded candidate have step-aligned quantities with
pairwise distinct keys. -/
def AlignInv (st : RoundState) : Prop :=
  stepAligned st.current ∧ keysNodup st.current.foodQuantities ∧
  match st.bestThisRound with
  | none => True
  | some b => stepAligned b ∧ keysNodup b.foodQuantities

/-
  Lemmas about the Go-map primitives.
-/

theorem mapGet_mapSet {κ α : Type} [DecidableEq κ] (m : List (κ × α)) (k k' : κ) (v : α) :
    mapGet (mapSet m k v) k' = if k = k' then some v else mapGet m k' := by
  induction m with
  | nil => simp [mapGet, mapSet]
  | cons p rest ih =>
    by_cases h1 : p.1 = k
    · by_cases h2 : k = k' <;> simp [mapSet, mapGet, h1, h2]
    · by_cases h2 : p.1 = k' <;> by_cases h3 : k = k' <;>
        simp_all [mapSet, mapGet, ih]

theorem mapGetD_mapSet {κ α : Type} [DecidableEq κ] (m : List (κ × α)) (k k' : κ) (v d : α) :
    mapGetD (mapSet m k v) k' d = if k = k' then v else mapGetD m k' d := by
  by_cases h : k = k' <;> simp [mapGetD, mapGet_mapSet, h]

theorem mapGet_mapDel {κ α : Type} [DecidableEq κ] (m : List (κ × α)) (k k' : κ) :
    mapGet (mapDel m k) k' = if k = k' then none else mapGet m k' := by
  induction m with
  | nil => simp [mapGet, mapDel]
  | cons p rest ih =>
    by_cases h1 : p.1 = k
    · by_cases h2 : k = k' <;> simp_all [mapDel, mapGet, ih]
    · by_cases h2 : p.1 = k' <;> by_cases h3 : k = k' <;>
        simp_all [mapDel, mapGet, ih]

theorem mapGet_eq_none_iff {κ α : Type} [DecidableEq κ] (m : List (κ × α)) (k : κ) :
    mapGet m k = none ↔ k ∉ m.map Prod.fst := by
  induction m with
  | nil => simp [mapGet]
  | cons p rest ih =>
    by_cases h : p.1 = k <;> simp_all [mapGet, eq_comm]

theorem mapSet_of_absent {κ α : Type} [DecidableEq κ] (m : List (κ × α)) (k : κ) (v : α)
    (h : mapGet m k = none) : mapSet m k v = m ++ [(k, v)] := by
  induction m with
  | nil => simp [mapSet]
  | cons p rest ih =>
    by_cases h1 : p.1 = k <;> simp_all [mapGet, mapSet]

theorem mapGet_append_of_none {κ α : Type} [DecidableEq κ] (m1 m2 : List (κ × α)) (k : κ)
    (h : mapGet m1 k = none) : mapGet (m1 ++ m2) k = mapGet m2 k := by
  induction m1 with
  | nil => simp
  | cons p rest ih =>
    by_cases h1 : p.1 = k <;> simp_all [mapGet]

theorem mapDel_of_absent {κ α : Type} [DecidableEq κ] (m : List (κ × α)) (k : κ)
    (h : mapGet m k = none) : mapDel m k = m := by
  induction m with
  | nil => simp [mapDel]
  | cons p rest ih =>
    by_cases h1 : p.1 = k <;> simp_all [mapGet, mapDel]

theorem mem_keys_mapSet {κ α : Type} [DecidableEq κ] (m : List (κ × α)) (k : κ) (v : α) (x : κ) :
    x ∈ (mapSet m k v).map Prod.fst ↔ x = k ∨ x ∈ m.map Prod.fst := by
  induction m with
  | nil => simp [mapSet]
  | cons p rest ih =>
    by_cases h1 : p.1 = k
    · subst h1
      simp only [mapSet, if_true, eq_self_iff_true, List.map_cons, List.mem_cons, ite_true]
      tauto
    · simp only [mapSet, if_neg h1, List.map_cons, List.mem_cons, ih]
      tauto

theorem keysNodup_nil {κ α : Type} : keysNodup ([] : List (κ × α)) := by
  simp [keysNodup]

theorem keysNodup_mapSet {κ α : Type} [DecidableEq κ] (m : List (κ × α)) (k : κ) (v : α)
    (h : keysNodup m) : keysNodup (mapSet m k v) := by
  induction m with
  | nil => simp [keysNodup, mapSet]
  | cons p rest ih =>
    simp only [keysNodup, List.map_cons, List.nodup_cons] at h
    by_cases h1 : p.1 = k
    · subst h1
      simp only [keysNodup, mapSet, if_true, eq_self_iff_true, List.map_cons,
        List.nodup_cons, ite_true]
      exact h
    · have hrest := ih h.2
      simp only [keysNodup, mapSet, if_neg h1, List.map_cons, List.nodup_cons]
      refine ⟨?_, hrest⟩
      intro hmem
      rcases (mem_keys_mapSet rest k v p.1).1 hmem with h2 | h2
      · exact h1 h2
      · exact h.1 h2

theorem mapDel_sublist {κ α : Type} [DecidableEq κ] (m : List (κ × α)) (k : κ) :
    (mapDel m k).Sublist m := by
  induction m with
  | nil => simp [mapDel]
  | cons p rest ih =>
    by_cases h1 : p.1 = k
    · simpa [mapDel, h1] using ih.cons p
    · simpa [mapDel, h1] using ih.cons₂ p

theorem keysNodup_mapDel {κ α : Type} [DecidableEq κ] (m : List (κ × α)) (k : κ)
    (h : keysNodup m) : keysNodup (mapDel m k) := by
  exact List.Nodup.sublist ((mapDel_sublist m k).map Prod.fst) h

theorem keysNodup_foldl_mapSet {κ α β : Type} [DecidableEq κ]
    (key : β → κ) (val : List (κ × α) → β → α) :
    ∀ (l : List β) (t : List (κ × α)), keysNodup t →
      keysNodup (l.foldl (fun ts x => mapSet ts (key x) (val ts x)) t) := by
  intro l
  induction l with
  | nil => intro t h; simpa using h
  | cons x rest ih =>
    intro t h
    exact ih _ (keysNodup_mapSet _ _ _ h)

theorem foldl_mapSet_of_disjoint {κ α : Type} [DecidableEq κ] :
    ∀ (l acc : List (κ × α)), keysNodup l →
      (∀ x ∈ l.map Prod.fst, mapGet acc x = none) →
      l.foldl (fun m p => mapSet m p.1 p.2) acc = acc ++ l := by
  intro l
  induction l with
  | nil => intro acc _ _; simp
  | cons p rest ih =>
    intro acc hnd hdis
    simp only [keysNodup, List.map_cons, List.nodup_cons] at hnd
    have habs : mapGet acc p.1 = none := hdis p.1 (by simp)
    have hstep : mapSet acc p.1 p.2 = acc ++ [p] := by
      simpa using mapSet_of_absent acc p.1 p.2 habs
    have hdis2 : ∀ x ∈ rest.map Prod.fst, mapGet (acc ++ [p]) x = none := by
      intro x hx
      have hxp : p.1 ≠ x := by
        intro hc
        exact hnd.1 (hc ▸ hx)
      rw [mapGet_append_of_none _ _ _ (hdis x (by simp [hx]))]
      simp [mapGet, hxp]
    calc (p :: rest).foldl (fun m q => mapSet m q.1 q.2) acc
        = rest.foldl (fun m q => mapSet m q.1 q.2) (acc ++ [p]) := by
          simp [List.foldl_cons, hstep]
      _ = (acc ++ [p]) ++ rest := ih (acc ++ [p]) hnd.2 hdis2
      _ = acc ++ p :: rest := by simp

theorem mapGetD_foldl_mapSet {κ α : Type} [DecidableEq κ] :
    ∀ (l acc : List (κ × α)) (k : κ) (d : α), keysNodup l →
      mapGetD (l.foldl (fun m p => mapSet m p.1 p.2) acc) k d
        = match mapGet l k with
          | some v => v
          | none => mapGetD acc k d := by
  intro l
  induction l with
  | nil => intro acc k d _; simp [mapGet]
  | cons p rest ih =>
    intro acc k d hnd
    simp only [keysNodup, List.map_cons, List.nodup_cons] at hnd
    rw [List.foldl_cons, ih _ _ _ hnd.2]
    by_cases h1 : p.1 = k
    · have : mapGet rest k = none := by
        rw [mapGet_eq_none_iff]
        exact fun hc => hnd.1 (h1 ▸ hc)
      simp [mapGet, h1, this, mapGetD_mapSet]
    · by_cases h2 : mapGet rest k = none <;>
        simp_all [mapGet, mapGetD_mapSet, h1]

/-
  Reads of the nutrient-update loops, `NewRecipe` and `Clone`.
-/

theorem mapGetD_addLoop (g : Int) (nid : Int) :
    ∀ (l : List NutrientInFood) (t : List (Int × ℚ)),
      mapGetD (l.foldl
        (fun ts nif => mapSet ts nif.nutrient.id
          (mapGetD ts nif.nutrient.id 0 + nif.amountPerG * (g : ℚ))) t) nid 0
      = mapGetD t nid 0 + apgList l nid * (g : ℚ) := by
  intro l
  induction l with
  | nil => intro t; simp [apgList]
  | cons nif rest ih =>
    intro t
    rw [List.foldl_cons, ih, mapGetD_mapSet]
    by_cases h : nif.nutrient.id = nid
    · simp only [apgList, if_pos h]
      rw [h]
      ring
    · simp only [apgList, if_neg h]
      ring

theorem mapGetD_subLoop (g : Int) (nid : Int) :
    ∀ (l : List NutrientInFood) (t : List (Int × ℚ)),
      mapGetD (l.foldl
        (fun ts nif => mapSet ts nif.nutrient.id
          (mapGetD ts nif.nutrient.id 0 - nif.amountPerG * (g : ℚ))) t) nid 0
      = mapGetD t nid 0 - apgList l nid * (g : ℚ) := by
  intro l
  induction l with
  | nil => intro t; simp [apgList]
  | cons nif rest ih =>
    intro t
    rw [List.foldl_cons, ih, mapGetD_mapSet]
    by_cases h : nif.nutrient.id = nid
    · simp only [apgList, if_pos h]
      rw [h]
      ring
    · simp only [apgList, if_neg h]
      ring

theorem mapGetD_addNutrientTotals (t : List (Int × ℚ)) (food : Food) (g : Int) (nid : Int) :
    mapGetD (addNutrientTotals t food g) nid 0
      = mapGetD t nid 0 + apgTotal food nid * (g : ℚ) :=
  mapGetD_addLoop g nid food.nutrients t

theorem mapGetD_subNutrientTotals (t : List (Int × ℚ)) (food : Food) (g : Int) (nid : Int) :
    mapGetD (subNutrientTotals t food g) nid 0
      = mapGetD t nid 0 - apgTotal food nid * (g : ℚ) :=
  mapGetD_subLoop g nid food.nutrients t

theorem keysNodup_addNutrientTotals (t : List (Int × ℚ)) (food : Food) (g : Int)
    (h : keysNodup t) : keysNodup (addNutrientTotals t food g) := by
  unfold addNutrientTotals
  exact keysNodup_foldl_mapSet (β := NutrientInFood) (fun nif => nif.nutrient.id)
    (fun ts nif => mapGetD ts nif.nutrient.id 0 + nif.amountPerG * (g : ℚ))
    food.nutrients t h

theorem keysNodup_subNutrientTotals (t : List (Int × ℚ)) (food : Food) (g : Int)
    (h : keysNodup t) : keysNodup (subNutrientTotals t food g) := by
  unfold subNutrientTotals
  exact keysNodup_foldl_mapSet (β := NutrientInFood) (fun nif => nif.nutrient.id)
    (fun ts nif => mapGetD ts nif.nutrient.id 0 - nif.amountPerG * (g : ℚ))
    food.nutrients t h

theorem mapGetD_NewRecipe (allFoods : List (Int × Food)) (allNutrients : List (Int × Nutrient))
    (nid : Int) : mapGetD (NewRecipe allFoods allNutrients).nutrientTotals nid 0 = 0 := by
  show mapGetD (allNutrients.foldl (fun ts p => mapSet ts p.1 (0 : ℚ)) []) nid 0 = 0
  have aux : ∀ (l : List (Int × Nutrient)) (acc : List (Int × ℚ)),
      (∀ k, mapGetD acc k (0 : ℚ) = 0) →
      mapGetD (l.foldl (fun ts p => mapSet ts p.1 (0 : ℚ)) acc) nid 0 = 0 := by
    intro l
    induction l with
    | nil => intro acc h; exact h nid
    | cons p rest ih =>
      intro acc h
      refine ih _ ?_
      intro k
      rw [mapGetD_mapSet]
      by_cases hk : p.1 = k <;> simp [hk, h k]
  exact aux allNutrients [] (fun k => by simp [mapGetD, mapGet])

theorem keysNodup_NewRecipe_totals (allFoods : List (Int × Food))
    (allNutrients : List (Int × Nutrient)) :
    keysNodup (NewRecipe allFoods allNutrients).nutrientTotals :=
  keysNodup_foldl_mapSet Prod.fst (fun _ _ => (0 : ℚ)) allNutrients [] keysNodup_nil

theorem Clone_foodQuantities (r : Recipe) (allFoods : List (Int × Food))
    (allNutrients : List (Int × Nutrient)) (h : keysNodup r.foodQuantities) :
    (r.Clone allFoods allNutrients).foodQuantities = r.foodQuantities := by
  show r.foodQuantities.foldl (fun m (p : Int × Int) => mapSet m p.1 p.2) [] = r.foodQuantities
  have := foldl_mapSet_of_disjoint r.foodQuantities [] h
    (fun x _ => by simp [mapGet])
  simpa using this

theorem keysNodup_Clone_foodQuantities (r : Recipe) (allFoods : List (Int × Food))
    (allNutrients : List (Int × Nutrient)) :
    keysNodup (r.Clone allFoods allNutrients).foodQuantities :=
  keysNodup_foldl_mapSet Prod.fst (fun _ (p : Int × Int) => p.2) r.foodQuantities []
    keysNodup_nil

theorem keysNodup_Clone_nutrientTotals (r : Recipe) (allFoods : List (Int × Food))
    (allNutrients : List (Int × Nutrient)) :
    keysNodup (r.Clone allFoods allNutrients).nutrientTotals :=
  keysNodup_foldl_mapSet Prod.fst (fun _ (p : Int × ℚ) => p.2) r.nutrientTotals
    (NewRecipe allFoods allNutrients).nutrientTotals
    (keysNodup_NewRecipe_totals allFoods allNutrients)

theorem mapGetD_Clone_nutrientTotals (r : Recipe) (allFoods : List (Int × Food))
    (allNutrients : List (Int × Nutrient)) (nid : Int) (h : keysNodup r.nutrientTotals) :
    mapGetD (r.Clone allFoods allNutrients).nutrientTotals nid 0
      = mapGetD r.nutrientTotals nid 0 := by
  show mapGetD (r.nutrientTotals.foldl (fun m (p : Int × ℚ) => mapSet m p.1 p.2)
      (NewRecipe allFoods allNutrients).nutrientTotals) nid 0
    = mapGetD r.nutrientTotals nid 0
  rw [mapGetD_foldl_mapSet r.nutrientTotals _ nid 0 h]
  cases hget : mapGet r.nutrientTotals nid with
  | none =>
    simp only [hget]
    rw [mapGetD_NewRecipe]
    simp [mapGetD, hget]
  | some v =>
    simp [mapGetD, hget]

/-
  Characterizations of `AddFood` and `RemoveFood`.
-/

theorem AddFood_eq (r : Recipe) (allFoods : List (Int × Food)) (food : Food) (g : Int) :
    r.AddFood allFoods food g
      = some { nutrientTotals := addNutrientTotals r.nutrientTotals food g
               foodQuantities :=
                 mapSet r.foodQuantities food.id (mapGetD r.foodQuantities food.id 0 + g) } := by
  unfold Recipe.AddFood Recipe.AssertConsistency
  cases hget : mapGet r.foodQuantities food.id with
  | none => simp [mapGetD, hget]
  | some q => simp [mapGetD, hget]

theorem RemoveFood_eq_none_iff (r : Recipe) (allFoods : List (Int × Food)) (food : Food)
    (g : Int) :
    r.RemoveFood allFoods food g = none
      ↔ (match mapGet r.foodQuantities food.id with
         | none => True
         | some q => g > q) := by
  unfold Recipe.RemoveFood Recipe.AssertConsistency
  cases hget : mapGet r.foodQuantities food.id with
  | none => simp
  | some q =>
    by_cases hgt : g > q <;> simp [hgt]

theorem RemoveFood_eq_some (r : Recipe) (allFoods : List (Int × Food)) (food : Food)
    (g q : Int) (hq : mapGet r.foodQuantities food.id = some q) (hle : g ≤ q) :
    r.RemoveFood allFoods food g
      = some { nutrientTotals := subNutrientTotals r.nutrientTotals food g
               foodQuantities :=
                 if g = q then mapDel r.foodQuantities food.id
                 else mapSet r.foodQuantities food.id (q - g) } := by
  unfold Recipe.RemoveFood Recipe.AssertConsistency
  simp [hq, not_lt.mpr hle]

theorem RemoveFood_some_inv (r r' : Recipe) (allFoods : List (Int × Food)) (food : Food)
    (g : Int) (h : r.RemoveFood allFoods food g = some r') :
    ∃ q, mapGet r.foodQuantities food.id = some q ∧ g ≤ q ∧
      r' = { nutrientTotals := subNutrientTotals r.nutrientTotals food g
             foodQuantities :=
               if g = q then mapDel r.foodQuantities food.id
               else mapSet r.foodQuantities food.id (q - g) } := by
  unfold Recipe.RemoveFood Recipe.AssertConsistency at h
  cases hget : mapGet r.foodQuantities food.id with
  | none => rw [hget] at h; simp at h
  | some q =>
    rw [hget] at h
    by_cases hgt : g > q
    · simp [hgt] at h
    · refine ⟨q, rfl, not_lt.mp hgt, ?_⟩
      simp [hgt] at h
      exact h.symm

/-
  `Score` depends only on the reads of `nutrientTotals` and on the
  `foodQuantities` entry list, so cloning does not change it.
-/

theorem Score_ext (r1 r2 : Recipe) (nutrients : List (Int × Nutrient))
    (allFoods : List (Int × Food)) (nutrientNameToId : List (String × Int)) (verbose : Bool)
    (ht : ∀ nid, mapGetD r1.nutrientTotals nid 0 = mapGetD r2.nutrientTotals nid 0)
    (hq : r1.foodQuantities = r2.foodQuantities) :
    r1.Score nutrients allFoods nutrientNameToId verbose
      = r2.Score nutrients allFoods nutrientNameToId verbose := by
  simp only [Recipe.Score, Recipe.calculatePenaltyForNutrient, ht, hq]

theorem Score_Clone (r : Recipe) (allFoods : List (Int × Food))
    (allNutrients : List (Int × Nutrient)) (nutrients : List (Int × Nutrient))
    (allFoods2 : List (Int × Food)) (nutrientNameToId : List (String × Int)) (verbose : Bool)
    (h1 : keysNodup r.nutrientTotals) (h2 : keysNodup r.foodQuantities) :
    (r.Clone allFoods allNutrients).Score nutrients allFoods2 nutrientNameToId verbose
      = r.Score nutrients allFoods2 nutrientNameToId verbose :=
  Score_ext _ _ _ _ _ _
    (fun nid => mapGetD_Clone_nutrientTotals r allFoods allNutrients nid h1)
    (Clone_foodQuantities r allFoods allNutrients h2)

/-
  `recomputeTotal` under the quantity-map updates.
-/

theorem recomputeTotal_mapSet (allFoods : List (Int × Food)) (nid : Int) (k v : Int) :
    ∀ (q : List (Int × Int)),
      recomputeTotal allFoods (mapSet q k v) nid
        = recomputeTotal allFoods q nid
          + ((v : ℚ) - ((mapGetD q k 0 : Int) : ℚ)) * apgTotal (foodAt allFoods k) nid := by
  intro q
  induction q with
  | nil => simp [mapSet, recomputeTotal, mapGetD, mapGet]
  | cons p rest ih =>
    by_cases h1 : p.1 = k
    · subst h1
      simp only [mapSet, if_true, eq_self_iff_true, ite_true, recomputeTotal, mapGetD, mapGet,
        Option.getD_some]
      ring
    · simp only [mapSet, if_neg h1, recomputeTotal, ih]
      have : mapGetD (p :: rest) k 0 = mapGetD rest k 0 := by
        simp [mapGetD, mapGet, h1]
      rw [this]
      ring

theorem recomputeTotal_mapDel (allFoods : List (Int × Food)) (nid : Int) (k : Int) :
    ∀ (q : List (Int × Int)), keysNodup q →
      recomputeTotal allFoods (mapDel q k) nid
        = recomputeTotal allFoods q nid
          - ((mapGetD q k 0 : Int) : ℚ) * apgTotal (foodAt allFoods k) nid := by
  intro q
  induction q with
  | nil => intro _; simp [mapDel, recomputeTotal, mapGetD, mapGet]
  | cons p rest ih =>
    intro hnd
    simp only [keysNodup, List.map_cons, List.nodup_cons] at hnd
    by_cases h1 : p.1 = k
    · subst h1
      have habs : mapGet rest p.1 = none := (mapGet_eq_none_iff rest p.1).2 hnd.1
      simp only [mapDel, if_true, eq_self_iff_true, ite_true, recomputeTotal,
        mapDel_of_absent rest p.1 habs, mapGetD, mapGet, Option.getD_some]
      ring
    · simp only [mapDel, if_neg h1, recomputeTotal, ih hnd.2]
      have : mapGetD (p :: rest) k 0 = mapGetD rest k 0 := by
        simp [mapGetD, mapGet, h1]
      rw [this]
      ring

/-
  C1: shape of the per-nutrient penalty primitive.
-/

/-- C1: for all `amount`, `min > 0` and `max = 0` or `max > min`:
below `min` the penalty is `(min - amount)/min * 100`; at or above `min` with
no max it is 0; with a max and midpoint `mid = min + (max - min)/2` it is 0
below `mid` and `(amount - mid)/(max - mid) * 100` otherwise, unclamped above
100; in particular with min=10, max=30: penalty(5)=50, penalty(10)=0,
penalty(20)=0, penalty(25)=50, penalty(30)=100, penalty(40)=200. -/
theorem calcPenalty_shape (name : String) (verbose : Bool) (amount mn mx : ℚ)
    (hmn : 0 < mn) (hmx : mx = 0 ∨ mn < mx) :
    (amount < mn → calcPenalty name amount mn mx verbose = (mn - amount) / mn * 100)
    ∧ (mn ≤ amount → mx = 0 → calcPenalty name amount mn mx verbose = 0)
    ∧ (mn ≤ amount → mx ≠ 0 → amount < mn + (mx - mn) / 2 →
        calcPenalty name amount mn mx verbose = 0)
    ∧ (mn ≤ amount → mx ≠ 0 → mn + (mx - mn) / 2 ≤ amount →
        calcPenalty name amount mn mx verbose
          = (amount - (mn + (mx - mn) / 2)) / (mx - (mn + (mx - mn) / 2)) * 100)
    ∧ calcPenalty name 5 10 30 verbose = 50
    ∧ calcPenalty name 10 10 30 verbose = 0
    ∧ calcPenalty name 20 10 30 verbose = 0
    ∧ calcPenalty name 25 10 30 verbose = 50
    ∧ calcPenalty name 30 10 30 verbose = 100
    ∧ calcPenalty name 40 10 30 verbose = 200 := by
  refine ⟨?_, ?_, ?_, ?_, ?_, ?_, ?_, ?_, ?_, ?_⟩
  · intro h
    simp [calcPenalty, h]
  · intro h1 h2
    simp [calcPenalty, not_lt.mpr h1, h2]
  · intro h1 h2 h3
    simp [calcPenalty, not_lt.mpr h1, h2, h3]
  · intro h1 h2 h3
    simp [calcPenalty, not_lt.mpr h1, h2, not_lt.mpr h3]
  · norm_num [calcPenalty]
  · norm_num [calcPenalty]
  · norm_num [calcPenalty]
  · norm_num [calcPenalty]
  · norm_num [calcPenalty]
  · norm_num [calcPenalty]

/-- Witness for `calcPenalty_shape`: min=10 > 0, max=30 > 10, and the
below-min instance evaluates to 50. -/
theorem calcPenalty_shape_witness : calcPenalty "Protein" 5 10 30 false = 50 :=
  (calcPenalty_shape "Protein" false 5 10 30 (by norm_num)
    (Or.inr (by norm_num))).2.2.2.2.1

/-
  C2: the nutrientTotals cache invariant along every mutation sequence.
-/

theorem reachable_inv (allFoods : List (Int × Food)) (allNutrients : List (Int × Nutrient))
    (r : Recipe) (h : Reachable allFoods allNutrients r) :
    keysNodup r.foodQuantities ∧
      ∀ nid, mapGetD r.nutrientTotals nid 0 = recomputeTotal allFoods r.foodQuantities nid := by
  induction h with
  | base =>
    refine ⟨keysNodup_nil, ?_⟩
    intro nid
    rw [mapGetD_NewRecipe]
    rfl
  | add r r' food grams hr hfood hg heq ih =>
    rw [AddFood_eq] at heq
    injection heq with heq
    subst heq
    have hfoodAt : foodAt allFoods food.id = food := by
      simp [foodAt, mapGetD, hfood]
    refine ⟨keysNodup_mapSet _ _ _ ih.1, ?_⟩
    intro nid
    rw [mapGetD_addNutrientTotals, recomputeTotal_mapSet, hfoodAt, ih.2 nid]
    push_cast
    ring
  | remove r r' food grams hr hfood hg heq ih =>
    obtain ⟨q, hq, hle, hr'⟩ := RemoveFood_some_inv r r' allFoods food grams heq
    subst hr'
    have hfoodAt : foodAt allFoods food.id = food := by
      simp [foodAt, mapGetD, hfood]
    have hqd : mapGetD r.foodQuantities food.id 0 = q := by
      simp [mapGetD, hq]
    by_cases heq2 : grams = q
    · refine ⟨by simpa [heq2] using keysNodup_mapDel _ _ ih.1, ?_⟩
      intro nid
      simp only [heq2, if_true, eq_self_iff_true, ite_true]
      rw [mapGetD_subNutrientTotals, recomputeTotal_mapDel allFoods nid food.id _ ih.1,
        hfoodAt, hqd, ih.2 nid]
      ring
    · refine ⟨by simpa [heq2] using keysNodup_mapSet _ food.id (q - grams) ih.1, ?_⟩
      intro nid
      simp only [if_neg heq2]
      rw [mapGetD_subNutrientTotals, recomputeTotal_mapSet, hfoodAt, hqd, ih.2 nid]
      push_cast
      ring

/-- C2: for every recipe built from `NewRecipe` by `AddFood` and successful
`RemoveFood` calls with positive gram amounts using catalog foods, and for
every nutrient id, the cached `nutrientTotals` entry equals the sum over all
`(foodId, grams)` quantity entries of `grams × amountPerGram(foodId, nid)`:
the invariant holds after every mutation. -/
theorem nutrientTotals_invariant (allFoods : List (Int × Food))
    (allNutrients : List (Int × Nutrient)) (r : Recipe)
    (h : Reachable allFoods allNutrients r) (nid : Int) :
    mapGetD r.nutrientTotals nid 0 = recomputeTotal allFoods r.foodQuantities nid :=
  (reachable_inv allFoods allNutrients r h).2 nid

/-- Witness for `nutrientTotals_invariant`: after adding 50 g of the sample
food (2 units of nutrient 301 per gram), the cached total 100 equals the
recomputed total 50 × 2. -/
theorem nutrientTotals_invariant_witness :
    mapGetD sampleRecipeAdded.nutrientTotals 301 0
      = recomputeTotal sampleCatalogFoods sampleRecipeAdded.foodQuantities 301 :=
  nutrientTotals_invariant sampleCatalogFoods sampleCatalogNutrients sampleRecipeAdded
    (Reachable.add _ sampleRecipeAdded sampleFood 50 Reachable.base (by rfl) (by decide)
      (by
        rw [AddFood_eq]
        simp only [NewRecipe, sampleCatalogNutrients, sampleCatalogFoods, sampleRecipeAdded,
          addNutrientTotals, sampleFood, sampleNutrient, List.foldl, mapSet, mapGetD, mapGet]
        norm_num)) 301

/-
  C3: AddFood then RemoveFood round-trips the recipe.
-/

/-- C3: for any recipe, food, and positive grams `g` such that the food is
absent or `g` is at most its current quantity, `AddFood` then `RemoveFood` of
`g` succeeds and restores the quantities map exactly (same keys and values,
deleting an entry the `AddFood` created) and every nutrient total read to its
prior value — exactly, in the rational model, hence within any tolerance. -/
theorem addFood_removeFood_roundtrip (allFoods : List (Int × Food)) (r : Recipe)
    (food : Food) (g : Int) (k nid : Int) (hg : 0 < g)
    (hcase : match mapGet r.foodQuantities food.id with
             | none => True
             | some v => g ≤ v) :
    match (r.AddFood allFoods food g).bind (fun ra => ra.RemoveFood allFoods food g) with
    | some r' =>
        mapGet r'.foodQuantities k = mapGet r.foodQuantities k
        ∧ mapGetD r'.nutrientTotals nid 0 = mapGetD r.nutrientTotals nid 0
    | none => False := by
  rcases hgetr : mapGet r.foodQuantities food.id with _ | v
  · -- food absent: AddFood creates the entry, RemoveFood deletes it again
    have hv0 : mapGetD r.foodQuantities food.id 0 = 0 := by
      simp [mapGetD, hgetr]
    rw [AddFood_eq, hv0, Option.some_bind]
    have hget2 : mapGet (mapSet r.foodQuantities food.id (0 + g)) food.id = some (0 + g) := by
      rw [mapGet_mapSet]
      simp
    rw [RemoveFood_eq_some _ allFoods food g (0 + g) hget2 (by omega)]
    have hdel : (g = 0 + g) = True := by simp
    refine ⟨?_, ?_⟩
    · simp only [hdel, if_true, ite_true]
      rw [mapGet_mapDel]
      by_cases hk : food.id = k
      · subst hk
        simp [hgetr]
      · rw [if_neg hk, mapGet_mapSet, if_neg hk]
    · rw [mapGetD_subNutrientTotals, mapGetD_addNutrientTotals]
      ring
  · -- food present with quantity v, g ≤ v
    rw [hgetr] at hcase
    have hv0 : mapGetD r.foodQuantities food.id 0 = v := by
      simp [mapGetD, hgetr]
    rw [AddFood_eq, hv0, Option.some_bind]
    have hget2 : mapGet (mapSet r.foodQuantities food.id (v + g)) food.id = some (v + g) := by
      rw [mapGet_mapSet]
      simp
    rw [RemoveFood_eq_some _ allFoods food g (v + g) hget2 (by omega)]
    have hne : ¬(g = v + g) := by omega
    refine ⟨?_, ?_⟩
    · simp only [if_neg hne]
      rw [mapGet_mapSet]
      by_cases hk : food.id = k
      · subst hk
        rw [if_pos rfl, hgetr]
        have hvv : v + g - g = v := by omega
        rw [hvv]
      · rw [if_neg hk, mapGet_mapSet, if_neg hk]
    · rw [mapGetD_subNutrientTotals, mapGetD_addNutrientTotals]
      ring

/-- Witness for `addFood_removeFood_roundtrip`: adding then removing 7 g of
the sample food on the fresh recipe restores both maps. -/
theorem addFood_removeFood_roundtrip_witness :
    match ((NewRecipe sampleCatalogFoods sampleCatalogNutrients).AddFood sampleCatalogFoods
        sampleFood 7).bind
        (fun ra => ra.RemoveFood sampleCatalogFoods sampleFood 7) with
    | some r' =>
        mapGet r'.foodQuantities 11090
          = mapGet (NewRecipe sampleCatalogFoods sampleCatalogNutrients).foodQuantities 11090
        ∧ mapGetD r'.nutrientTotals 301 0
          = mapGetD (NewRecipe sampleCatalogFoods sampleCatalogNutrients).nutrientTotals 301 0
    | none => False :=
  addFood_removeFood_roundtrip sampleCatalogFoods
    (NewRecipe sampleCatalogFoods sampleCatalogNutrients) sampleFood 7 11090 301
    (by decide) (by trivial)

/-
  C4: the exact failure condition and success behavior of RemoveFood.
-/

/-- C4: `RemoveFood` fails exactly when the food is absent from the recipe or
the requested grams exceed its current quantity; on success it decrements the
quantity, deletes the entry exactly when the requested grams equal the current
quantity, and decrements every nutrient total read by
`grams × amountPerGram`. -/
theorem removeFood_spec (allFoods : List (Int × Food)) (r : Recipe) (food : Food)
    (g : Int) (nid : Int) :
    (r.RemoveFood allFoods food g = none
      ↔ (match mapGet r.foodQuantities food.id with
         | none => True
         | some q => g > q))
    ∧ (match r.RemoveFood allFoods food g, mapGet r.foodQuantities food.id with
       | some r', some q =>
           g ≤ q
           ∧ r'.foodQuantities
               = (if g = q then mapDel r.foodQuantities food.id
                  else mapSet r.foodQuantities food.id (q - g))
           ∧ mapGetD r'.nutrientTotals nid 0
               = mapGetD r.nutrientTotals nid 0 - apgTotal food nid * (g : ℚ)
       | some _, none => False
       | none, _ => True) := by
  refine ⟨RemoveFood_eq_none_iff r allFoods food g, ?_⟩
  rcases hget : mapGet r.foodQuantities food.id with _ | q
  · have hnone : r.RemoveFood allFoods food g = none := by
      rw [RemoveFood_eq_none_iff, hget]
      trivial
    rw [hnone]
    trivial
  · by_cases hgt : g > q
    · have hnone : r.RemoveFood allFoods food g = none := by
        rw [RemoveFood_eq_none_iff, hget]
        exact hgt
      rw [hnone]
      trivial
    · rw [RemoveFood_eq_some r allFoods food g q hget (not_lt.mp hgt)]
      exact ⟨not_lt.mp hgt, rfl, mapGetD_subNutrientTotals _ _ _ _⟩

/-
  C5: AddFood has no failure condition at all — not even for non-positive
  grams. The claim that it fails for every non-positive grams value is false.
-/

/-- Counterexample to C5: `AddFood` succeeds (does not fail) with grams = 0
and with grams = -3, although the claim says every non-positive grams value
fails. -/
theorem addFood_nonpositive_succeeds :
    ((NewRecipe sampleCatalogFoods sampleCatalogNutrients).AddFood sampleCatalogFoods
        sampleFood 0).isSome = true
    ∧ ((NewRecipe sampleCatalogFoods sampleCatalogNutrients).AddFood sampleCatalogFoods
        sampleFood (-3)).isSome = true := by
  rw [AddFood_eq, AddFood_eq]
  exact ⟨rfl, rfl⟩

/-- C5 amended: `AddFood` never fails — the source validates nothing, for any
grams value (non-positive included) it returns a recipe with
`quantities[food.id]` incremented by the grams (creating the entry if absent)
and every nutrient total read incremented by `grams × amountPerGram`. -/
theorem addFood_never_fails (allFoods : List (Int × Food)) (r : Recipe) (food : Food)
    (g : Int) (nid : Int) :
    (r.AddFood allFoods food g).isSome = true
    ∧ mapGet ((r.AddFood allFoods food g).getD r).foodQuantities food.id
        = some (mapGetD r.foodQuantities food.id 0 + g)
    ∧ mapGetD ((r.AddFood allFoods food g).getD r).nutrientTotals nid 0
        = mapGetD r.nutrientTotals nid 0 + apgTotal food nid * (g : ℚ) := by
  rw [AddFood_eq]
  refine ⟨rfl, ?_, ?_⟩
  · simp only [Option.getD_some]
    rw [mapGet_mapSet]
    simp
  · simp only [Option.getD_some]
    exact mapGetD_addNutrientTotals _ _ _ _

/-
  C8: the score of a freshly created recipe.
-/

theorem NewRecipe_foodQuantities (allFoods : List (Int × Food))
    (allNutrients : List (Int × Nutrient)) :
    (NewRecipe allFoods allNutrients).foodQuantities = [] := rfl

/-- C8: a freshly created recipe (empty quantities, all totals zero) scores
exactly 4100 — 100 for each of the 41 ramped target entries (the 39 table
entries, the combined phenylalanine+tyrosine entry, and the derived folate
entry, all with min > 0) — plus zero food-count, mass and caffeine penalties
and zero dihydrophylloquinone pass-through. -/
theorem empty_recipe_score (nutrients : List (Int × Nutrient))
    (allFoods : List (Int × Food)) (nutrientNameToId : List (String × Int))
    (verbose : Bool) :
    (NewRecipe allFoods nutrients).Score nutrients allFoods nutrientNameToId verbose = 4100
    ∧ (4100 : ℚ) = 41 * 100 := by
  constructor
  · simp only [Recipe.Score, Recipe.calculatePenaltyForNutrient, mapGetD_NewRecipe,
      NewRecipe_foodQuantities, List.foldl_nil]
    norm_num [calcPenalty, min_def]
  · norm_num

/-
  C9: the consistency check is a no-op in the shipped code.
-/

/-- Counterexample to C9: `divergentRecipe`'s cached total for nutrient 301
differs from the recomputed total by 100 > 0.5, yet `AssertConsistency`
passes — its whole body is commented out in the source, so it never raises
any fault. -/
theorem assertConsistency_ignores_divergence :
    (1 / 2 : ℚ) < |mapGetD divergentRecipe.nutrientTotals 301 0
        - recomputeTotal [] divergentRecipe.foodQuantities 301|
    ∧ divergentRecipe.AssertConsistency [] = some () := by
  constructor
  · norm_num [divergentRecipe, mapGetD, mapGet, recomputeTotal]
  · rfl

/-- C9 amended: `AssertConsistency` is a no-op — its recompute-and-compare
body is commented out in the source — so it passes on every recipe and every
catalog, never raising an internal-consistency fault, no matter how far the
cached totals diverge from the recomputed ones. -/
theorem assertConsistency_never_faults (r : Recipe) (allFoods : List (Int × Food)) :
    r.AssertConsistency allFoods = some () := rfl

/-
  C6: per-round monotonicity of the hill-climbing driver.
-/

theorem RemoveFood_result_nodup (r r' : Recipe) (allFoods : List (Int × Food)) (food : Food)
    (g : Int) (h : r.RemoveFood allFoods food g = some r')
    (h1 : keysNodup r.nutrientTotals) (h2 : keysNodup r.foodQuantities) :
    keysNodup r'.nutrientTotals ∧ keysNodup r'.foodQuantities := by
  obtain ⟨q, hq, hle, hrm⟩ := RemoveFood_some_inv r r' allFoods food g h
  subst hrm
  refine ⟨keysNodup_subNutrientTotals _ _ _ h1, ?_⟩
  by_cases hgq : g = q
  · simpa [hgq] using keysNodup_mapDel _ food.id h2
  · simpa [hgq] using keysNodup_mapSet _ food.id (q - g) h2

theorem RoundInv_bestScore_le (nutrients : List (Int × Nutrient))
    (allFoods : List (Int × Food)) (nameToId : List (String × Int)) (s : ℚ)
    (st : RoundState) (h : RoundInv nutrients allFoods nameToId s st) :
    st.bestScoreThisRound ≤ s := by
  obtain ⟨-, -, h3⟩ := h
  cases hb : st.bestThisRound with
  | none => rw [hb] at h3; exact le_of_eq h3
  | some b => rw [hb] at h3; exact le_of_lt h3.2


theorem RoundInv_record (nutrients : List (Int × Nutrient)) (allFoods : List (Int × Food))
    (nameToId : List (String × Int)) (s : ℚ) (st : RoundState) (cand : Recipe)
    (candScore : ℚ) (cur : Recipe)
    (h : RoundInv nutrients allFoods nameToId s st)
    (hcur1 : keysNodup cur.nutrientTotals) (hcur2 : keysNodup cur.foodQuantities)
    (hcand : cand.Score nutrients allFoods nameToId false = candScore) :
    RoundInv nutrients allFoods nameToId s
      { current := cur
        bestThisRound :=
          (if candScore < st.bestScoreThisRound
           then { st with bestThisRound := some cand, bestScoreThisRound := candScore }
           else st).bestThisRound
        bestScoreThisRound :=
          (if candScore < st.bestScoreThisRound
           then { st with bestThisRound := some cand, bestScoreThisRound := candScore }
           else st).bestScoreThisRound } := by
  have hle := RoundInv_bestScore_le nutrients allFoods nameToId s st h
  by_cases hlt : candScore < st.bestScoreThisRound
  · simp only [if_pos hlt]
    exact ⟨hcur1, hcur2, hcand, lt_of_lt_of_le hlt hle⟩
  · simp only [if_neg hlt]
    exact ⟨hcur1, hcur2, h.2.2⟩

theorem tryRemovePhase_inv (nutrients : List (Int × Nutrient)) (allFoods : List (Int × Food))
    (nameToId : List (String × Int)) (s : ℚ) (st : RoundState) (food : Food)
    (h : RoundInv nutrients allFoods nameToId s st) :
    match tryRemovePhase nutrients allFoods nameToId st food with
    | none => True
    | some st' => RoundInv nutrients allFoods nameToId s st' := by
  unfold tryRemovePhase
  cases hhas : st.current.HasFood food with
  | false => simpa [hhas] using h
  | true =>
    simp only [hhas, if_true]
    cases hrem : st.current.RemoveFood allFoods food STEPSIZE with
    | none => trivial
    | some removed =>
      have hnod := RemoveFood_result_nodup _ _ _ _ _ hrem h.1 h.2.1
      dsimp only
      rw [AddFood_eq removed allFoods food STEPSIZE]
      exact RoundInv_record nutrients allFoods nameToId s st
        (removed.Clone allFoods nutrients)
        (removed.Score nutrients allFoods nameToId false)
        { nutrientTotals := addNutrientTotals removed.nutrientTotals food STEPSIZE
          foodQuantities :=
            mapSet removed.foodQuantities food.id
              (mapGetD removed.foodQuantities food.id 0 + STEPSIZE) }
        h (keysNodup_addNutrientTotals _ _ _ hnod.1) (keysNodup_mapSet _ _ _ hnod.2)
        (Score_Clone removed allFoods nutrients nutrients allFoods nameToId false
          hnod.1 hnod.2)

theorem tryAddPhase_inv (nutrients : List (Int × Nutrient)) (allFoods : List (Int × Food))
    (nameToId : List (String × Int)) (s : ℚ) (st : RoundState) (food : Food)
    (h : RoundInv nutrients allFoods nameToId s st) :
    match tryAddPhase nutrients allFoods nameToId st food with
    | none => True
    | some st' => RoundInv nutrients allFoods nameToId s st' := by
  unfold tryAddPhase
  rw [AddFood_eq st.current allFoods food STEPSIZE]
  set added : Recipe :=
    { nutrientTotals := addNutrientTotals st.current.nutrientTotals food STEPSIZE
      foodQuantities :=
        mapSet st.current.foodQuantities food.id
          (mapGetD st.current.foodQuantities food.id 0 + STEPSIZE) } with hadded
  have hnod : keysNodup added.nutrientTotals ∧ keysNodup added.foodQuantities :=
    ⟨keysNodup_addNutrientTotals _ _ _ h.1, keysNodup_mapSet _ _ _ h.2.1⟩
  dsimp only
  cases hrem : added.RemoveFood allFoods food STEPSIZE with
  | none => trivial
  | some restored =>
    have hnodR := RemoveFood_result_nodup _ _ _ _ _ hrem hnod.1 hnod.2
    exact RoundInv_record nutrients allFoods nameToId s st
      (added.Clone allFoods nutrients) (added.Score nutrients allFoods nameToId false)
      restored h hnodR.1 hnodR.2
      (Score_Clone added allFoods nutrients nutrients allFoods nameToId false
        hnod.1 hnod.2)

theorem tryFood_inv (nutrients : List (Int × Nutrient)) (allFoods : List (Int × Food))
    (nameToId : List (String × Int)) (s : ℚ) (st : RoundState) (food : Food)
    (h : RoundInv nutrients allFoods nameToId s st) :
    match tryFood nutrients allFoods nameToId st food with
    | none => True
    | some st' => RoundInv nutrients allFoods nameToId s st' := by
  unfold tryFood
  have h1 := tryRemovePhase_inv nutrients allFoods nameToId s st food h
  cases hp1 : tryRemovePhase nutrients allFoods nameToId st food with
  | none => simp [hp1]
  | some st1 =>
    rw [hp1] at h1
    exact tryAddPhase_inv nutrients allFoods nameToId s st1 food h1

theorem foldl_tryFood_none (nutrients : List (Int × Nutrient)) (allFoods : List (Int × Food))
    (nameToId : List (String × Int)) :
    ∀ l : List (Int × Food),
      l.foldl (fun acc p => acc.bind (fun st => tryFood nutrients allFoods nameToId st p.2))
        none = none := by
  intro l
  induction l with
  | nil => rfl
  | cons p rest ih => simpa using ih

theorem foldl_tryFood_inv (nutrients : List (Int × Nutrient)) (allFoods : List (Int × Food))
    (nameToId : List (String × Int)) (s : ℚ) :
    ∀ (l : List (Int × Food)) (st : RoundState), RoundInv nutrients allFoods nameToId s st →
      match l.foldl
          (fun acc p => acc.bind (fun st => tryFood nutrients allFoods nameToId st p.2))
          (some st) with
      | none => True
      | some st' => RoundInv nutrients allFoods nameToId s st' := by
  intro l
  induction l with
  | nil => intro st h; exact h
  | cons p rest ih =>
    intro st h
    rw [List.foldl_cons, Option.some_bind]
    have h1 := tryFood_inv nutrients allFoods nameToId s st p.2 h
    cases htf : tryFood nutrients allFoods nameToId st p.2 with
    | none =>
      rw [foldl_tryFood_none nutrients allFoods nameToId rest]
      trivial
    | some st1 =>
      rw [htf] at h1
      exact ih st1 h1

/-- C6: one optimizer round, started from best recipe `B` with incoming best
score `s`, never increases the best score: a candidate is adopted only with a
score strictly below `s` (and the adopted recipe really scores that value, so
across successive rounds the best score strictly decreases), a round with no
improving candidate terminates the search reporting `B` itself, and the
`panic("wtf")` internal-consistency fault — an adopted candidate scoring worse
than the recipe it replaces — can never fire. -/
theorem round_monotone (nutrients : List (Int × Nutrient)) (allFoods : List (Int × Food))
    (nameToId : List (String × Int)) (bestRecipeEver : Recipe) (bestScoreEver : ℚ) :
    match runRound nutrients allFoods nameToId bestRecipeEver bestScoreEver with
    | RoundOutcome.removeFault => True
    | RoundOutcome.wtfFault => False
    | RoundOutcome.terminated best => best = bestRecipeEver
    | RoundOutcome.adopted best score =>
        score < bestScoreEver
        ∧ best.Score nutrients allFoods nameToId false = score := by
  unfold runRound
  dsimp only
  have hinit : RoundInv nutrients allFoods nameToId bestScoreEver
      { current := bestRecipeEver.Clone allFoods nutrients
        bestThisRound := none
        bestScoreThisRound := bestScoreEver } :=
    ⟨keysNodup_Clone_nutrientTotals _ _ _, keysNodup_Clone_foodQuantities _ _ _, rfl⟩
  have hfold := foldl_tryFood_inv nutrients allFoods nameToId bestScoreEver allFoods _ hinit
  cases hres : allFoods.foldl
      (fun acc p => acc.bind (fun st => tryFood nutrients allFoods nameToId st p.2))
      (some { current := bestRecipeEver.Clone allFoods nutrients
              bestThisRound := none
              bestScoreThisRound := bestScoreEver }) with
  | none => trivial
  | some st =>
    rw [hres] at hfold
    dsimp only
    obtain ⟨-, -, h3⟩ := hfold
    cases hbest : st.bestThisRound with
    | none => trivial
    | some b =>
      rw [hbest] at h3
      have hnot : ¬(st.bestScoreThisRound > bestScoreEver) := not_lt.mpr (le_of_lt h3.2)
      simp only [hnot, if_false, ite_false]
      exact ⟨h3.2, h3.1⟩

/-
  C10: all reachable optimizer recipes are step-aligned, so the trial
  removals and undo removals inside a round can never panic.
-/

theorem stepAligned_NewRecipe (allFoods : List (Int × Food))
    (allNutrients : List (Int × Nutrient)) : stepAligned (NewRecipe allFoods allNutrients) := by
  intro fid q h
  simp [NewRecipe, mapGet] at h

theorem stepAligned_Clone (r : Recipe) (allFoods : List (Int × Food))
    (allNutrients : List (Int × Nutrient)) (h : stepAligned r)
    (hq : keysNodup r.foodQuantities) : stepAligned (r.Clone allFoods allNutrients) := by
  intro fid q hget
  rw [Clone_foodQuantities r allFoods allNutrients hq] at hget
  exact h fid q hget

theorem stepAligned_addStep (r : Recipe) (food : Food) (h : stepAligned r) :
    ∀ fid v, mapGet (mapSet r.foodQuantities food.id
        (mapGetD r.foodQuantities food.id 0 + STEPSIZE)) fid = some v →
      0 < v ∧ STEPSIZE ∣ v := by
  intro fid v hv
  rw [mapGet_mapSet] at hv
  by_cases hk : food.id = fid
  · rw [if_pos hk] at hv
    injection hv with hv
    subst hv
    have h5 : STEPSIZE = (5 : Int) := rfl
    cases hget : mapGet r.foodQuantities food.id with
    | none =>
      rw [h5]
      simp only [mapGetD, hget, Option.getD_none]
      omega
    | some w =>
      have hw0 := h food.id w hget
      rw [h5] at hw0
      rw [h5]
      simp only [mapGetD, hget, Option.getD_some]
      omega
  · rw [if_neg hk] at hv
    exact h fid v hv

theorem stepAligned_removeStep (r : Recipe) (food : Food) (qty : Int)
    (hq : mapGet r.foodQuantities food.id = some qty) (h : stepAligned r) :
    ∀ fid v, mapGet (if STEPSIZE = qty then mapDel r.foodQuantities food.id
        else mapSet r.foodQuantities food.id (qty - STEPSIZE)) fid = some v →
      0 < v ∧ STEPSIZE ∣ v := by
  intro fid v hv
  have hqty := h food.id qty hq
  have h5 : STEPSIZE = (5 : Int) := rfl
  by_cases he : STEPSIZE = qty
  · rw [if_pos he, mapGet_mapDel] at hv
    by_cases hk : food.id = fid
    · rw [if_pos hk] at hv
      exact absurd hv (by simp)
    · rw [if_neg hk] at hv
      exact h fid v hv
  · rw [if_neg he, mapGet_mapSet] at hv
    by_cases hk : food.id = fid
    · rw [if_pos hk] at hv
      injection hv with hv
      subst hv
      rw [h5] at hqty he ⊢
      omega
    · rw [if_neg hk] at hv
      exact h fid v hv

theorem AlignInv_record (st : RoundState) (cand cur : Recipe) (candScore : ℚ)
    (h : AlignInv st) (hcur1 : stepAligned cur) (hcur2 : keysNodup cur.foodQuantities)
    (hcand1 : stepAligned cand) (hcand2 : keysNodup cand.foodQuantities) :
    AlignInv
      { current := cur
        bestThisRound :=
          (if candScore < st.bestScoreThisRound
           then { st with bestThisRound := some cand, bestScoreThisRound := candScore }
           else st).bestThisRound
        bestScoreThisRound :=
          (if candScore < st.bestScoreThisRound
           then { st with bestThisRound := some cand, bestScoreThisRound := candScore }
           else st).bestScoreThisRound } := by
  by_cases hlt : candScore < st.bestScoreThisRound
  · simp only [if_pos hlt]
    exact ⟨hcur1, hcur2, hcand1, hcand2⟩
  · simp only [if_neg hlt]
    exact ⟨hcur1, hcur2, h.2.2⟩

theorem tryRemovePhase_align (nutrients : List (Int × Nutrient))
    (allFoods : List (Int × Food)) (nameToId : List (String × Int)) (st : RoundState)
    (food : Food) (h : AlignInv st) :
    match tryRemovePhase nutrients allFoods nameToId st food with
    | none => False
    | some st' => AlignInv st' := by
  unfold tryRemovePhase
  cases hhas : st.current.HasFood food with
  | false => simpa [hhas] using h
  | true =>
    simp only [hhas, if_true]
    have hsome : (mapGet st.current.foodQuantities food.id).isSome = true := hhas
    obtain ⟨qty, hq⟩ := Option.isSome_iff_exists.mp hsome
    have hqal := h.1 food.id qty hq
    have hle : STEPSIZE ≤ qty := by
      have h5 : STEPSIZE = (5 : Int) := rfl
      rw [h5] at hqal ⊢
      omega
    rw [RemoveFood_eq_some st.current allFoods food STEPSIZE qty hq hle]
    dsimp only
    set removed : Recipe :=
      { nutrientTotals := subNutrientTotals st.current.nutrientTotals food STEPSIZE
        foodQuantities :=
          if STEPSIZE = qty then mapDel st.current.foodQuantities food.id
          else mapSet st.current.foodQuantities food.id (qty - STEPSIZE) } with hremoved
    have hremAligned : stepAligned removed :=
      fun fid v hv => stepAligned_removeStep st.current food qty hq h.1 fid v hv
    have hremNodup : keysNodup removed.foodQuantities := by
      rw [hremoved]
      by_cases he : STEPSIZE = qty
      · simpa [he] using keysNodup_mapDel _ food.id h.2.1
      · simpa [he] using keysNodup_mapSet _ food.id (qty - STEPSIZE) h.2.1
    rw [AddFood_eq removed allFoods food STEPSIZE]
    exact AlignInv_record st (removed.Clone allFoods nutrients)
      { nutrientTotals := addNutrientTotals removed.nutrientTotals food STEPSIZE
        foodQuantities :=
          mapSet removed.foodQuantities food.id
            (mapGetD removed.foodQuantities food.id 0 + STEPSIZE) }
      (removed.Score nutrients allFoods nameToId false) h
      (fun fid v hv => stepAligned_addStep removed food hremAligned fid v hv)
      (keysNodup_mapSet _ _ _ hremNodup)
      (stepAligned_Clone removed allFoods nutrients hremAligned hremNodup)
      (keysNodup_Clone_foodQuantities removed allFoods nutrients)

theorem tryAddPhase_align (nutrients : List (Int × Nutrient))
    (allFoods : List (Int × Food)) (nameToId : List (String × Int)) (st : RoundState)
    (food : Food) (h : AlignInv st) :
    match tryAddPhase nutrients allFoods nameToId st food with
    | none => False
    | some st' => AlignInv st' := by
  unfold tryAddPhase
  rw [AddFood_eq st.current allFoods food STEPSIZE]
  dsimp only
  set added : Recipe :=
    { nutrientTotals := addNutrientTotals st.current.nutrientTotals food STEPSIZE
      foodQuantities :=
        mapSet st.current.foodQuantities food.id
          (mapGetD st.current.foodQuantities food.id 0 + STEPSIZE) } with hadded
  have haddAligned : stepAligned added :=
    fun fid v hv => stepAligned_addStep st.current food h.1 fid v hv
  have haddNodup : keysNodup added.foodQuantities := keysNodup_mapSet _ _ _ h.2.1
  have hget : mapGet added.foodQuantities food.id
      = some (mapGetD st.current.foodQuantities food.id 0 + STEPSIZE) := by
    rw [hadded]
    show mapGet (mapSet st.current.foodQuantities food.id
      (mapGetD st.current.foodQuantities food.id 0 + STEPSIZE)) food.id = _
    rw [mapGet_mapSet]
    simp
  have hge : 0 ≤ mapGetD st.current.foodQuantities food.id 0 := by
    cases hg : mapGet st.current.foodQuantities food.id with
    | none => simp [mapGetD, hg]
    | some w =>
      have := h.1 food.id w hg
      simp only [mapGetD, hg, Option.getD_some]
      exact le_of_lt this.1
  have hle : STEPSIZE ≤ mapGetD st.current.foodQuantities food.id 0 + STEPSIZE := by omega
  rw [RemoveFood_eq_some added allFoods food STEPSIZE _ hget hle]
  exact AlignInv_record st (added.Clone allFoods nutrients)
    { nutrientTotals := subNutrientTotals added.nutrientTotals food STEPSIZE
      foodQuantities :=
        if STEPSIZE = mapGetD st.current.foodQuantities food.id 0 + STEPSIZE
        then mapDel added.foodQuantities food.id
        else mapSet added.foodQuantities food.id
          (mapGetD st.current.foodQuantities food.id 0 + STEPSIZE - STEPSIZE) }
    (added.Score nutrients allFoods nameToId false) h
    (fun fid v hv => stepAligned_removeStep added food _ hget haddAligned fid v hv)
    (by
      show keysNodup
        (if STEPSIZE = mapGetD st.current.foodQuantities food.id 0 + STEPSIZE
         then mapDel added.foodQuantities food.id
         else mapSet added.foodQuantities food.id
           (mapGetD st.current.foodQuantities food.id 0 + STEPSIZE - STEPSIZE))
      split
      · exact keysNodup_mapDel added.foodQuantities food.id haddNodup
      · exact keysNodup_mapSet added.foodQuantities food.id _ haddNodup)
    (stepAligned_Clone added allFoods nutrients haddAligned haddNodup)
    (keysNodup_Clone_foodQuantities added allFoods nutrients)

theorem tryFood_align (nutrients : List (Int × Nutrient)) (allFoods : List (Int × Food))
    (nameToId : List (String × Int)) (st : RoundState) (food : Food) (h : AlignInv st) :
    match tryFood nutrients allFoods nameToId st food with
    | none => False
    | some st' => AlignInv st' := by
  unfold tryFood
  have h1 := tryRemovePhase_align nutrients allFoods nameToId st food h
  cases hp1 : tryRemovePhase nutrients allFoods nameToId st food with
  | none =>
    rw [hp1] at h1
    exact h1.elim
  | some st1 =>
    rw [hp1] at h1
    exact tryAddPhase_align nutrients allFoods nameToId st1 food h1

theorem foldl_tryFood_align (nutrients : List (Int × Nutrient))
    (allFoods : List (Int × Food)) (nameToId : List (String × Int)) :
    ∀ (l : List (Int × Food)) (st : RoundState), AlignInv st →
      match l.foldl
          (fun acc p => acc.bind (fun st => tryFood nutrients allFoods nameToId st p.2))
          (some st) with
      | none => False
      | some st' => AlignInv st' := by
  intro l
  induction l with
  | nil => intro st h; exact h
  | cons p rest ih =>
    intro st h
    rw [List.foldl_cons, Option.some_bind]
    have h1 := tryFood_align nutrients allFoods nameToId st p.2 h
    cases htf : tryFood nutrients allFoods nameToId st p.2 with
    | none =>
      rw [htf] at h1
      exact h1.elim
    | some st1 =>
      rw [htf] at h1
      exact ih st1 h1

theorem runRound_align (nutrients : List (Int × Nutrient)) (allFoods : List (Int × Food))
    (nameToId : List (String × Int)) (B : Recipe) (s : ℚ)
    (hB1 : stepAligned B) (hB2 : keysNodup B.foodQuantities) :
    runRound nutrients allFoods nameToId B s ≠ RoundOutcome.removeFault
    ∧ ∀ b sc, runRound nutrients allFoods nameToId B s = RoundOutcome.adopted b sc →
        stepAligned b ∧ keysNodup b.foodQuantities := by
  unfold runRound
  dsimp only
  have hinit : AlignInv
      { current := B.Clone allFoods nutrients
        bestThisRound := none
        bestScoreThisRound := s } :=
    ⟨stepAligned_Clone B allFoods nutrients hB1 hB2,
      keysNodup_Clone_foodQuantities _ _ _, trivial⟩
  have hfold := foldl_tryFood_align nutrients allFoods nameToId allFoods _ hinit
  cases hres : allFoods.foldl
      (fun acc p => acc.bind (fun st => tryFood nutrients allFoods nameToId st p.2))
      (some { current := B.Clone allFoods nutrients
              bestThisRound := none
              bestScoreThisRound := s }) with
  | none =>
    rw [hres] at hfold
    exact hfold.elim
  | some st =>
    rw [hres] at hfold
    dsimp only
    obtain ⟨-, -, h3⟩ := hfold
    cases hbest : st.bestThisRound with
    | none =>
      refine ⟨fun hc => RoundOutcome.noConfusion hc, ?_⟩
      intro b sc hc
      exact RoundOutcome.noConfusion hc
    | some b =>
      rw [hbest] at h3
      by_cases hgt : st.bestScoreThisRound > s
      · simp only [if_pos hgt]
        refine ⟨fun hc => RoundOutcome.noConfusion hc, ?_⟩
        intro b' sc hc
        exact RoundOutcome.noConfusion hc
      · simp only [if_neg hgt]
        refine ⟨fun hc => RoundOutcome.noConfusion hc, ?_⟩
        intro b' sc hc
        injection hc with hb hsc
        subst hb
        exact h3

theorem optReachable_aligned (nutrients : List (Int × Nutrient))
    (allFoods : List (Int × Food)) (nameToId : List (String × Int)) (B : Recipe)
    (h : OptReachable nutrients allFoods nameToId B) :
    stepAligned B ∧ keysNodup B.foodQuantities := by
  induction h with
  | base => exact ⟨stepAligned_NewRecipe allFoods nutrients, keysNodup_nil⟩
  | step b b' sc hb hrun ih =>
    exact (runRound_align nutrients allFoods nameToId b _ ih.1 ih.2).2 b' sc hrun

/-- C10: every recipe reachable by the optimizer's search loop (starting from
the empty recipe and mutating only in units of `STEPSIZE` = 5) stores only
quantities that are positive multiples of the step size, hence at least the
step size; consequently no trial removal of one step for a contained food and
no undo removal after a trial addition can ever hit `RemoveFood`'s
food-absent or excess-grams panic — a round never ends in `removeFault`. -/
theorem optimizer_step_safe (nutrients : List (Int × Nutrient))
    (allFoods : List (Int × Food)) (nameToId : List (String × Int)) (B : Recipe) (s : ℚ)
    (h : OptReachable nutrients allFoods nameToId B) :
    stepAligned B
    ∧ runRound nutrients allFoods nameToId B s ≠ RoundOutcome.removeFault := by
  have hB := optReachable_aligned nutrients allFoods nameToId B h
  exact ⟨hB.1, (runRound_align nutrients allFoods nameToId B s hB.1 hB.2).1⟩

/-- Witness for `optimizer_step_safe` at the base reachable recipe. -/
theorem optimizer_step_safe_witness :
    stepAligned (NewRecipe sampleCatalogFoods sampleCatalogNutrients)
    ∧ runRound sampleCatalogNutrients sampleCatalogFoods []
        (NewRecipe sampleCatalogFoods sampleCatalogNutrients) 4100
      ≠ RoundOutcome.removeFault :=
  optimizer_step_safe sampleCatalogNutrients sampleCatalogFoods []
    (NewRecipe sampleCatalogFoods sampleCatalogNutrients) 4100 OptReachable.base

/-
  C7: clones own their maps — mutations through one reference never change
  the maps another reference points to.
-/

theorem readRecipe_writeRecipe_other (h : Heap) (ref1 ref2 : RecipeRef) (r : Recipe)
    (ht : ref1.taddr ≠ ref2.taddr) (hq : ref1.qaddr ≠ ref2.qaddr) :
    (h.writeRecipe ref2 r).readRecipe ref1 = h.readRecipe ref1 := by
  simp [Heap.readRecipe, Heap.writeRecipe, ht, hq]

theorem applyMut_frame (h : Heap) (allFoods : List (Int × Food)) (ref1 ref2 : RecipeRef)
    (m : RecipeMut) (ht : ref1.taddr ≠ ref2.taddr) (hq : ref1.qaddr ≠ ref2.qaddr) :
    (h.applyMut allFoods ref2 m).readRecipe ref1 = h.readRecipe ref1 := by
  cases m with
  | add food grams =>
    unfold Heap.applyMut
    dsimp only
    cases (h.readRecipe ref2).AddFood allFoods food grams with
    | none => rfl
    | some r' => exact readRecipe_writeRecipe_other h ref1 ref2 r' ht hq
  | remove food grams =>
    unfold Heap.applyMut
    dsimp only
    cases (h.readRecipe ref2).RemoveFood allFoods food grams with
    | none => rfl
    | some r' => exact readRecipe_writeRecipe_other h ref1 ref2 r' ht hq

theorem applyMuts_frame (allFoods : List (Int × Food)) (ref1 ref2 : RecipeRef)
    (ht : ref1.taddr ≠ ref2.taddr) (hq : ref1.qaddr ≠ ref2.qaddr) :
    ∀ (ms : List RecipeMut) (h : Heap),
      (h.applyMuts allFoods ref2 ms).readRecipe ref1 = h.readRecipe ref1 := by
  intro ms
  induction ms with
  | nil => intro h; rfl
  | cons m rest ih =>
    intro h
    show ((h.applyMut allFoods ref2 m).applyMuts allFoods ref2 rest).readRecipe ref1 = _
    rw [ih (h.applyMut allFoods ref2 m), applyMut_frame h allFoods ref1 ref2 m ht hq]

theorem cloneRecipe_ref (h : Heap) (allFoods : List (Int × Food))
    (allNutrients : List (Int × Nutrient)) (ref : RecipeRef) :
    (h.cloneRecipe allFoods allNutrients ref).2
      = { taddr := h.nextAddr, qaddr := h.nextAddr + 1 } := rfl

theorem cloneRecipe_preserves (h : Heap) (allFoods : List (Int × Food))
    (allNutrients : List (Int × Nutrient)) (ref : RecipeRef)
    (ht : ref.taddr < h.nextAddr) (hq : ref.qaddr < h.nextAddr) :
    (h.cloneRecipe allFoods allNutrients ref).1.readRecipe ref = h.readRecipe ref := by
  unfold Heap.cloneRecipe Heap.newRecipe
  dsimp only
  rw [readRecipe_writeRecipe_other _ ref _ _ (by dsimp only; omega) (by dsimp only; omega)]
  rw [readRecipe_writeRecipe_other _ ref _ _ (by dsimp only; omega) (by dsimp only; omega)]
  rfl

/-- C7: `Clone` returns a recipe with independently-owned copies of both maps:
cloning does not disturb the original, every sequence of `AddFood`/`RemoveFood`
mutations applied through the clone's reference leaves the original recipe's
`quantities` and `nutrientTotals` unchanged, and mutating the original never
changes the clone. -/
theorem clone_independent (h : Heap) (allFoods : List (Int × Food))
    (allNutrients : List (Int × Nutrient)) (ref : RecipeRef)
    (ht : ref.taddr < h.nextAddr) (hq : ref.qaddr < h.nextAddr)
    (muts muts' : List RecipeMut) :
    ((h.cloneRecipe allFoods allNutrients ref).1.applyMuts allFoods
        (h.cloneRecipe allFoods allNutrients ref).2 muts).readRecipe ref
      = h.readRecipe ref
    ∧ ((h.cloneRecipe allFoods allNutrients ref).1.applyMuts allFoods ref muts').readRecipe
        (h.cloneRecipe allFoods allNutrients ref).2
      = (h.cloneRecipe allFoods allNutrients ref).1.readRecipe
        (h.cloneRecipe allFoods allNutrients ref).2 := by
  have href : (h.cloneRecipe allFoods allNutrients ref).2
      = { taddr := h.nextAddr, qaddr := h.nextAddr + 1 } :=
    cloneRecipe_ref h allFoods allNutrients ref
  constructor
  · rw [applyMuts_frame allFoods ref (h.cloneRecipe allFoods allNutrients ref).2
      (by rw [href]; dsimp only; omega) (by rw [href]; dsimp only; omega)]
    exact cloneRecipe_preserves h allFoods allNutrients ref ht hq
  · rw [applyMuts_frame allFoods (h.cloneRecipe allFoods allNutrients ref).2 ref
      (by rw [href]; dsimp only; omega) (by rw [href]; dsimp only; omega)]

/-- Witness for `clone_independent`: a concrete heap holding one recipe; adding
5 g of the sample food through the clone leaves the original unchanged, and
removing through the original leaves the clone unchanged. -/
theorem clone_independent_witness :
    ((witnessHeap.cloneRecipe sampleCatalogFoods sampleCatalogNutrients witnessRef).1.applyMuts
        sampleCatalogFoods
        (witnessHeap.cloneRecipe sampleCatalogFoods sampleCatalogNutrients witnessRef).2
        [RecipeMut.add sampleFood 5]).readRecipe witnessRef
      = witnessHeap.readRecipe witnessRef
    ∧ ((witnessHeap.cloneRecipe sampleCatalogFoods sampleCatalogNutrients
          witnessRef).1.applyMuts sampleCatalogFoods witnessRef
        [RecipeMut.remove sampleFood 5]).readRecipe
        (witnessHeap.cloneRecipe sampleCatalogFoods sampleCatalogNutrients witnessRef).2
      = (witnessHeap.cloneRecipe sampleCatalogFoods sampleCatalogNutrients
          witnessRef).1.readRecipe
        (witnessHeap.cloneRecipe sampleCatalogFoods sampleCatalogNutrients witnessRef).2 :=
  clone_independent witnessHeap sampleCatalogFoods sampleCatalogNutrients witnessRef
    (by decide) (by decide) [RecipeMut.add sampleFood 5] [RecipeMut.remove sampleFood 5]
